import Mathlib

/-!
Verification of the directory-listing/summarization core of
`aws_ssh_client.py` (class `AWSSSHClient`): the listing parser
(`list_directory`), the size parser (`_parse_size`), and the directory
summarizer (`get_directory_summary`).

Modelling conventions:
* Python strings are modelled as `List Char`; `"…".data` converts a Lean
  string literal to this representation.  Character classification
  (`str.isdigit`, whitespace) is modelled over ASCII, which covers every
  token shape the program produces and consumes.
* Python `float` values are modelled exactly.  Every float the core
  manipulates is produced by `float(...)` on a digits-and-dot literal and
  then scaled by powers of 1024 and summed, so each is a rational of the
  form `n / 10 ^ e`.  `PyFloat` stores such a pair, and `PyFloat.toRat`
  interprets it in `ℚ`; all comparisons and arithmetic are defined so
  that they agree with the interpretation.  (This is exact arithmetic; a
  binary double is inexact on values such as `1.2`, but the two models
  agree on every comparison and value the claims mention.)  The
  one-decimal `"%.1f"` formatting is modelled as round-half-up on the
  exact value; CPython rounds the underlying double half-to-even, and
  the two agree away from exact two-decimal ties, where all claim values
  lie.
* Code that can raise a Python exception is modelled with `Option`:
  `none` means the original code raises.
-/

/-- The six characters Python's `str.strip` / `str.split` treat as
whitespace. -/
def isPySpace (c : Char) : Bool :=
  c = ' ' || c = '\t' || c = '\n' || c = '\r' || c = '\x0b' || c = '\x0c'

/-- Python `s.strip()`: drop leading and trailing whitespace. -/
def pyStrip (l : List Char) : List Char :=
  ((l.dropWhile isPySpace).reverse.dropWhile isPySpace).reverse

/-- Prepend a character to the first piece of a piece list. -/
def consHead (c : Char) : List (List Char) → List (List Char)
  | [] => [[c]]
  | w :: ws => (c :: w) :: ws

/-- Python `s.split('\n')`: split on every newline, keeping empty pieces;
always returns at least one piece. -/
def splitNL : List Char → List (List Char)
  | [] => [[]]
  | c :: cs => if c = '\n' then [] :: splitNL cs else consHead c (splitNL cs)

/-- Helper for `pySplit`: `acc` is the current word, reversed. -/
def pySplitAux : List Char → List Char → List (List Char)
  | [], acc => if acc = [] then [] else [acc.reverse]
  | c :: cs, acc =>
    if isPySpace c then
      if acc = [] then pySplitAux cs [] else acc.reverse :: pySplitAux cs []
    else pySplitAux cs (c :: acc)

/-- Python `s.split()` with no argument: split on runs of whitespace,
discarding empty pieces. -/
def pySplit (l : List Char) : List (List Char) :=
  pySplitAux l []

/-- Python `'c'.join(pieces)` for a single-character separator `c`. -/
def joinSep (c : Char) : List (List Char) → List Char
  | [] => []
  | [r] => r
  | r :: r2 :: rs => r ++ c :: joinSep c (r2 :: rs)

/-- Python `s.isdigit()` restricted to ASCII: nonempty and all digits. -/
def pyIsDigit (s : List Char) : Bool :=
  !s.isEmpty && s.all Char.isDigit

/-- Python `s.replace(c, '')` for a single character `c`. -/
def removeAll (c : Char) (s : List Char) : List Char :=
  s.filter (fun x => x ≠ c)

/-- The numeric value of a digit string read in base 10. -/
def digitsToNat (l : List Char) : ℕ :=
  l.foldl (fun n c => 10 * n + (c.toNat - '0'.toNat)) 0

/-- An exact model of the (nonnegative) Python floats this program
manipulates: the value `num / 10 ^ exp`.  The representation is not
normalized; value-level equality and order go through `PyFloat.toRat`. -/
structure PyFloat where
  num : ℕ
  exp : ℕ
deriving DecidableEq

namespace PyFloat

/-- The rational value of a `PyFloat`. -/
def toRat (a : PyFloat) : ℚ := (a.num : ℚ) / 10 ^ a.exp

/-- The float `0.0`. -/
def zero : PyFloat := ⟨0, 0⟩

/-- Multiplication by a natural constant (the `* 1024` scalings). -/
def mulNat (a : PyFloat) (k : ℕ) : PyFloat := ⟨a.num * k, a.exp⟩

/-- Addition (the `total_size +=` accumulation). -/
def add (a b : PyFloat) : PyFloat :=
  ⟨a.num * 10 ^ b.exp + b.num * 10 ^ a.exp, a.exp + b.exp⟩

/-- Value-level `≤`, as Python's float comparison. -/
def le (a b : PyFloat) : Bool :=
  a.num * 10 ^ b.exp ≤ b.num * 10 ^ a.exp

/-- Value-level strict comparison with a natural number threshold
(the `total_size > 1024 ** k` tests). -/
def gtNat (a : PyFloat) (n : ℕ) : Bool :=
  n * 10 ^ a.exp < a.num

end PyFloat

/-- Python `float(s)`, modelled on the token shapes reachable in this
program: every call site is guarded so that `s` consists of digits, dots
and the letters `K`/`M`/`G` only.  On that domain `float` succeeds
exactly when the string is digits with at most one dot and at least one
digit; `none` models the `ValueError` Python raises otherwise.  (Sign,
exponent and whitespace forms are unreachable through the guards and are
not modelled.) -/
def pyFloat (s : List Char) : Option PyFloat :=
  if (s.all fun c => c.isDigit || c = '.') ∧ s.count '.' ≤ 1 ∧ s.any Char.isDigit then
    let intPart := s.takeWhile (fun c => c ≠ '.')
    match s.dropWhile (fun c => c ≠ '.') with
    | [] => some ⟨digitsToNat intPart, 0⟩
    | _ :: frac => some ⟨digitsToNat intPart * 10 ^ frac.length + digitsToNat frac, frac.length⟩
  else none

/-- `AWSSSHClient._parse_size` (lines 332–344): `none` models a raised
`ValueError` escaping from the `float(...)` calls; `some q` models a
normal return of `q`. -/
def parseSize (s : List Char) : Option PyFloat :=
  if s = [] ∨ ¬ pyIsDigit (removeAll 'G' (removeAll 'M' (removeAll 'K' (removeAll '.' s)))) then
    some PyFloat.zero
  else if s.getLast? = some 'K' then (pyFloat s.dropLast).map (·.mulNat 1024)
  else if s.getLast? = some 'M' then (pyFloat s.dropLast).map (·.mulNat (1024 * 1024))
  else if s.getLast? = some 'G' then (pyFloat s.dropLast).map (·.mulNat (1024 * 1024 * 1024))
  else if pyIsDigit (removeAll '.' s) then pyFloat s
  else some PyFloat.zero

/-- One parsed line of a directory listing: the dict built at lines
150–160 of `aws_ssh_client.py`. -/
structure Entry where
  permissions : List Char
  links : List Char
  owner : List Char
  group : List Char
  size : List Char
  month : List Char
  day : List Char
  time : List Char
  name : List Char
deriving DecidableEq

/-- The entry built from the whitespace tokens of one line:
`parts[0]` … `parts[7]` verbatim and `' '.join(parts[8:])` as the name. -/
def entryOfParts (p : List (List Char)) : Entry :=
  { permissions := p.getD 0 []
    links := p.getD 1 []
    owner := p.getD 2 []
    group := p.getD 3 []
    size := p.getD 4 []
    month := p.getD 5 []
    day := p.getD 6 []
    time := p.getD 7 []
    name := joinSep ' ' (p.drop 8) }

/-- The per-line step of the loop at lines 146–161: a non-blank line
splitting into at least 9 tokens yields an entry, anything else is
dropped. -/
def parseLine (line : List Char) : Option Entry :=
  if pyStrip line ≠ [] then
    let parts := pySplit line
    if 9 ≤ parts.length then some (entryOfParts parts) else none
  else none

/-- Lines 142–144: drop the first line when it starts with `total`. -/
def skipTotal : List (List Char) → List (List Char)
  | [] => []
  | l0 :: rest => if List.isPrefixOf "total".data l0 then rest else l0 :: rest

/-- Lines 140–144: strip the captured stdout, split it on newlines, and
drop the first line when it starts with `total`. -/
def effLines (text : List Char) : List (List Char) :=
  skipTotal (splitNL (pyStrip text))

/-- The parsing core of `AWSSSHClient.list_directory` (lines 139–163),
from captured stdout text to the ordered entry list. -/
def parseListing (text : List Char) : List Entry :=
  (effLines text).filterMap parseLine

/-- One iteration of the `total_size` accumulation at lines 297–308:
the value added for one size token (`none` models a raised
`ValueError`).  The guard is `size_str.replace('.', '').isdigit()`; only
when it holds are the suffix branches and the `float` conversion
reached. -/
def sizeContribution (s : List Char) : Option PyFloat :=
  if pyIsDigit (removeAll '.' s) then
    if s.getLast? = some 'K' then (pyFloat s.dropLast).map (·.mulNat 1024)
    else if s.getLast? = some 'M' then (pyFloat s.dropLast).map (·.mulNat (1024 * 1024))
    else if s.getLast? = some 'G' then (pyFloat s.dropLast).map (·.mulNat (1024 * 1024 * 1024))
    else pyFloat s
  else some PyFloat.zero

/-- The whole `total_size` accumulation over the size tokens of the
entries (`none` models a raised exception; the sum is associated to the
right, which has the same exact value as Python's left fold). -/
def totalSizeBytes : List (List Char) → Option PyFloat
  | [] => some PyFloat.zero
  | s :: rest =>
    match sizeContribution s, totalSizeBytes rest with
    | some v, some r => some (v.add r)
    | _, _ => none

/-- The decorate step of `sorted(files, key=lambda x: self._parse_size(x['size']), ...)`:
each entry paired with its sort key, `none` when some key computation
raises. -/
def keyEntries : List Entry → Option (List (PyFloat × Entry))
  | [] => some []
  | f :: fs =>
    match parseSize f.size, keyEntries fs with
    | some k, some rest => some ((k, f) :: rest)
    | _, _ => none

/-- Insert one element into a list already sorted in descending key
order, after every element whose key is `≥` its own.  Folding this over
the input models Python's stable `sorted(..., reverse=True)`. -/
def insertDesc {α : Type} (x : PyFloat × α) : List (PyFloat × α) → List (PyFloat × α)
  | [] => [x]
  | y :: ys => if x.1.le y.1 then y :: insertDesc x ys else x :: y :: ys

/-- Python's `sorted(keyed, reverse=True)` on decorated pairs: stable,
descending by key value. -/
def stableSortDesc {α : Type} (l : List (PyFloat × α)) : List (PyFloat × α) :=
  l.foldl (fun acc x => insertDesc x acc) []

/-- `sorted(files, key=..., reverse=True)[:3]` at line 327; `none`
models a key computation raising. -/
def largestFiles (files : List Entry) : Option (List Entry) :=
  (keyEntries files).map (fun keyed => ((stableSortDesc keyed).map Prod.snd).take 3)

/-- The value of an entry's sort key, `_parse_size(entry.size)`, as a
rational (0 when the parse would raise; used only where it cannot). -/
def sizeKey (f : Entry) : ℚ :=
  ((parseSize f.size).getD PyFloat.zero).toRat

/-- `f"{x:.1f}"` applied to the value `q / d` (with `d` one of the three
unit divisors): round-half-up to one decimal, rendered as digits, dot,
digit.  CPython rounds the binary double half-to-even; the models agree
away from exact two-decimal ties.  Only values `> 1` reach this in the
program. -/
def fmt1Div (q : PyFloat) (d : ℕ) : List Char :=
  let den := 10 ^ q.exp * d
  let t := (2 * (q.num * 10) + den) / (2 * den)
  Nat.toDigits 10 (t / 10) ++ '.' :: Nat.toDigits 10 (t % 10)

/-- The human-readable formatting of `total_size` at lines 310–318.
In the final branch Python's `int()` truncates; the value there is
nonnegative, so truncation is `q.num / 10 ^ q.exp` in `ℕ`. -/
def humanSize (q : PyFloat) : List Char :=
  if q.gtNat (1024 * 1024 * 1024) then fmt1Div q (1024 * 1024 * 1024) ++ "GB".data
  else if q.gtNat (1024 * 1024) then fmt1Div q (1024 * 1024) ++ "MB".data
  else if q.gtNat 1024 then fmt1Div q 1024 ++ "KB".data
  else Nat.toDigits 10 (q.num / 10 ^ q.exp) ++ " bytes".data

/-- The dict returned by `AWSSSHClient.get_directory_summary`:
`inaccessible` is the empty-listing branch (line 288, with its error
message), `caughtException` the `except` branch at lines 329–330 (its
error message is the dynamic `str(e)`, not modelled), and `ok` the
success dict of lines 320–328. -/
inductive DirSummary where
  | inaccessible (path : List Char) (error : List Char)
  | caughtException (path : List Char)
  | ok (path : List Char) (totalItems : ℕ) (directories : ℕ) (files : ℕ)
      (totalSize : List Char) (largest : List Entry)
deriving DecidableEq

/-- `AWSSSHClient.get_directory_summary` (lines 275–330), as a function
of the already-parsed entries of the path. -/
def getDirectorySummary (path : List Char) (files : List Entry) : DirSummary :=
  if files.isEmpty then
    .inaccessible path "Directory empty or access denied".data
  else
    let totalFiles := files.length
    let totalDirs := (files.filter fun f => List.isPrefixOf "d".data f.permissions).length
    let totalRegular := totalFiles - totalDirs
    match totalSizeBytes (files.map (·.size)) with
    | none => .caughtException path
    | some ts =>
      match largestFiles files with
      | none => .caughtException path
      | some lf => .ok path totalFiles totalDirs totalRegular (humanSize ts) lf

theorem PyFloat.toRat_zero : PyFloat.zero.toRat = 0 := by
  simp [PyFloat.toRat, PyFloat.zero]

theorem PyFloat.toRat_mulNat (a : PyFloat) (k : ℕ) : (a.mulNat k).toRat = a.toRat * k := by
  simp [PyFloat.toRat, PyFloat.mulNat]
  ring

theorem PyFloat.toRat_add (a b : PyFloat) : (a.add b).toRat = a.toRat + b.toRat := by
  have h1 : ((10 : ℚ) ^ a.exp) ≠ 0 := by positivity
  have h2 : ((10 : ℚ) ^ b.exp) ≠ 0 := by positivity
  rw [toRat, toRat, toRat, add, div_add_div _ _ h1 h2, ← pow_add]
  push_cast
  ring_nf

theorem PyFloat.le_iff (a b : PyFloat) : a.le b = true ↔ a.toRat ≤ b.toRat := by
  have h1 : (0 : ℚ) < 10 ^ a.exp := by positivity
  have h2 : (0 : ℚ) < 10 ^ b.exp := by positivity
  rw [toRat, toRat, div_le_div_iff₀ h1 h2]
  simp only [le, decide_eq_true_eq]
  constructor
  · intro h
    exact_mod_cast h
  · intro h
    exact_mod_cast h

theorem PyFloat.gtNat_iff (a : PyFloat) (n : ℕ) : a.gtNat n = true ↔ (n : ℚ) < a.toRat := by
  have h1 : (0 : ℚ) < 10 ^ a.exp := by positivity
  rw [toRat, lt_div_iff₀ h1]
  simp only [gtNat, decide_eq_true_eq]
  constructor
  · intro h
    exact_mod_cast h
  · intro h
    exact_mod_cast h

theorem pyStrip_eq_nil_imp {l : List Char} (h : pyStrip l = []) :
    ∀ c ∈ l, isPySpace c = true := by
  rw [pyStrip, List.reverse_eq_nil_iff, List.dropWhile_eq_nil_iff] at h
  have hdrop : ∀ c ∈ l.dropWhile isPySpace, isPySpace c = true := by
    intro c hc
    exact h c (List.mem_reverse.mpr hc)
  intro c hc
  rw [← @List.takeWhile_append_dropWhile _ isPySpace l] at hc
  rcases List.mem_append.mp hc with hc | hc
  · exact List.mem_takeWhile_imp hc
  · exact hdrop c hc

theorem pySplitAux_eq_nil {l : List Char} (h : ∀ c ∈ l, isPySpace c = true) :
    pySplitAux l [] = [] := by
  induction l with
  | nil => rfl
  | cons c cs ih =>
    have hc : isPySpace c = true := h c (List.mem_cons_self c cs)
    simp only [pySplitAux, hc, if_true, ite_self]
    exact ih fun x hx => h x (List.mem_cons_of_mem _ hx)

theorem pySplit_eq_nil {l : List Char} (h : ∀ c ∈ l, isPySpace c = true) :
    pySplit l = [] := pySplitAux_eq_nil h

/-- The per-line step, stated without the redundant blankness test: a
line produces an entry exactly when it has at least 9 whitespace
tokens. -/
theorem parseLine_eq (l : List Char) :
    parseLine l
      = if 9 ≤ (pySplit l).length then some (entryOfParts (pySplit l)) else none := by
  by_cases hs : pyStrip l = []
  · have h0 : pySplit l = [] := pySplit_eq_nil (pyStrip_eq_nil_imp hs)
    simp [parseLine, hs, h0]
  · simp [parseLine, hs]

theorem filterMap_ite_eq_filter_map {α β : Type} (p : α → Prop) [DecidablePred p]
    (g : α → β) (L : List α) :
    L.filterMap (fun x => if p x then some (g x) else none)
      = (L.filter fun x => decide (p x)).map g := by
  induction L with
  | nil => rfl
  | cons x xs ih => by_cases hx : p x <;> simp [hx, ih]

theorem splitNL_no_nl {a : List Char} (h : '\n' ∉ a) : splitNL a = [a] := by
  induction a with
  | nil => rfl
  | cons c cs ih =>
    have hc : ¬ c = '\n' := fun e => h (e ▸ List.mem_cons_self c cs)
    have hcs : '\n' ∉ cs := fun m => h (List.mem_cons_of_mem _ m)
    simp only [splitNL, hc, if_false, ih hcs]
    rfl

theorem splitNL_append {a b : List Char} (h : '\n' ∉ a) :
    splitNL (a ++ '\n' :: b) = a :: splitNL b := by
  induction a with
  | nil => simp [splitNL]
  | cons c cs ih =>
    have hc : ¬ c = '\n' := fun e => h (e ▸ List.mem_cons_self c cs)
    have hcs : '\n' ∉ cs := fun m => h (List.mem_cons_of_mem _ m)
    simp only [List.cons_append, splitNL, hc, if_false]
    have hih : splitNL (cs.append ('\n' :: b)) = cs :: splitNL b := ih hcs
    rw [hih]
    rfl

theorem splitNL_joinSep {rows : List (List Char)} (hne : rows ≠ [])
    (h : ∀ r ∈ rows, '\n' ∉ r) : splitNL (joinSep '\n' rows) = rows := by
  induction rows with
  | nil => cases hne rfl
  | cons r rs ih =>
    cases rs with
    | nil => exact splitNL_no_nl (h r (List.mem_cons_self r []))
    | cons r2 rs2 =>
      rw [joinSep, splitNL_append (h r (List.mem_cons_self r _)),
        ih (by simp) fun x hx => h x (List.mem_cons_of_mem _ hx)]

theorem joinSep_ne_nil {c : Char} {rows : List (List Char)} (hne : rows ≠ [])
    (hall : ∀ x ∈ rows, x ≠ []) : joinSep c rows ≠ [] := by
  cases rows with
  | nil => cases hne rfl
  | cons x xs =>
    cases xs with
    | nil => exact hall x (List.mem_cons_self x [])
    | cons y ys => simp [joinSep]

theorem joinSep_getLast?_mem {c : Char} {rows : List (List Char)} (hne : rows ≠ [])
    (hall : ∀ x ∈ rows, x ≠ []) :
    ∃ r, r ∈ rows ∧ (joinSep c rows).getLast? = r.getLast? := by
  induction rows with
  | nil => cases hne rfl
  | cons x xs ih =>
    cases xs with
    | nil => exact ⟨x, List.mem_cons_self x [], rfl⟩
    | cons y ys =>
      rcases ih (by simp) (fun z hz => hall z (List.mem_cons_of_mem _ hz)) with
        ⟨r, hrmem, hreq⟩
      refine ⟨r, List.mem_cons_of_mem _ hrmem, ?_⟩
      rw [show joinSep c (x :: y :: ys) = x ++ c :: joinSep c (y :: ys) from rfl,
        List.getLast?_append]
      have hJ : joinSep c (y :: ys) ≠ [] :=
        joinSep_ne_nil (by simp) fun z hz => hall z (List.mem_cons_of_mem _ hz)
      have hr_ne : r ≠ [] := hall r (List.mem_cons_of_mem _ hrmem)
      cases hJc : joinSep c (y :: ys) with
      | nil => exact absurd hJc hJ
      | cons j js =>
        rw [hJc] at hreq
        rw [List.getLast?_cons_cons, hreq,
          List.getLast?_eq_getLast_of_ne_nil hr_ne]
        rfl

theorem pyStrip_eq_self {l : List Char}
    (h1 : ∀ c, l.head? = some c → isPySpace c = false)
    (h2 : ∀ c, l.getLast? = some c → isPySpace c = false) : pyStrip l = l := by
  cases l with
  | nil => rfl
  | cons c cs =>
    have hc : isPySpace c = false := h1 c rfl
    have hdrop : (c :: cs).dropWhile isPySpace = c :: cs := by
      simp [List.dropWhile, hc]
    rw [pyStrip, hdrop]
    cases hr : (c :: cs).reverse with
    | nil => simp at hr
    | cons d ds =>
      have hd : isPySpace d = false := by
        apply h2
        rw [← List.head?_reverse, hr]
        rfl
      rw [show (d :: ds).dropWhile isPySpace = d :: ds by simp [List.dropWhile, hd],
        ← hr, List.reverse_reverse]

theorem length_filterMap_of_all_some {α β : Type} {f : α → Option β} {L : List α}
    (h : ∀ x ∈ L, ∃ y, f x = some y) : (L.filterMap f).length = L.length := by
  induction L with
  | nil => rfl
  | cons x xs ih =>
    rcases h x (List.mem_cons_self x xs) with ⟨y, hy⟩
    rw [List.filterMap_cons_some hy, List.length_cons, List.length_cons,
      ih fun z hz => h z (List.mem_cons_of_mem _ hz)]

/-- C9: the size-parsing table: `"512"` → 512.0, `"1.5K"` → 1536.0,
`"2M"` → 2097152.0, `"1G"` → 1073741824.0, and both `""` and `"abc"` →
0.0, all as normal (non-raising) returns of `_parse_size`. -/
theorem c9_size_table :
    (parseSize "512".data).map PyFloat.toRat = some 512
  ∧ (parseSize "1.5K".data).map PyFloat.toRat = some 1536
  ∧ (parseSize "2M".data).map PyFloat.toRat = some 2097152
  ∧ (parseSize "1G".data).map PyFloat.toRat = some 1073741824
  ∧ (parseSize "".data).map PyFloat.toRat = some 0
  ∧ (parseSize "abc".data).map PyFloat.toRat = some 0 := by
  refine ⟨?_, ?_, ?_, ?_, ?_, ?_⟩
  · rw [show parseSize "512".data = some ⟨512, 0⟩ from by decide]
    norm_num [PyFloat.toRat]
  · rw [show parseSize "1.5K".data = some ⟨15360, 1⟩ from by decide]
    norm_num [PyFloat.toRat]
  · rw [show parseSize "2M".data = some ⟨2097152, 0⟩ from by decide]
    norm_num [PyFloat.toRat]
  · rw [show parseSize "1G".data = some ⟨1073741824, 0⟩ from by decide]
    norm_num [PyFloat.toRat]
  · rw [show parseSize "".data = some ⟨0, 0⟩ from by decide]
    norm_num [PyFloat.toRat]
  · rw [show parseSize "abc".data = some ⟨0, 0⟩ from by decide]
    norm_num [PyFloat.toRat]

/-- C1 (code bug): evaluation at the failing input.  A listing whose one
entry has size token `"1.5K"` accumulates a total of 0 bytes, because
the accumulation guard `size_str.replace('.', '').isdigit()` rejects
every suffixed token; yet `_parse_size` — the validation the claim (and
the comment above the dead `K`/`M`/`G` branches) intends — gives the
same token 1536.0 bytes. -/
theorem c1_suffix_excluded_from_total :
    (totalSizeBytes ["1.5K".data]).map PyFloat.toRat = some 0
  ∧ (parseSize "1.5K".data).map PyFloat.toRat = some 1536 := by
  constructor
  · rw [show totalSizeBytes ["1.5K".data] = some ⟨0, 0⟩ from by decide]
    norm_num [PyFloat.toRat]
  · rw [show parseSize "1.5K".data = some ⟨15360, 1⟩ from by decide]
    norm_num [PyFloat.toRat]

/-- C2 (code bug): evaluation at the failing input.  `_parse_size`'s
guard strips every dot and every `K`/`M`/`G` before `isdigit`, so
`"1.2.3"` passes it, reaches `float("1.2.3")`, and raises `ValueError`
(modelled by `none`) instead of returning 0; the same token also makes
the `total_size` accumulation raise. -/
theorem c2_parse_size_raises :
    parseSize "1.2.3".data = none ∧ sizeContribution "1.2.3".data = none := by
  decide

theorem mem_of_getLast?_eq {α : Type} {l : List α} {a : α} (h : l.getLast? = some a) :
    a ∈ l := by
  rcases List.mem_getLast?_eq_getLast (show a ∈ l.getLast? from h) with ⟨hne, heq⟩
  exact heq ▸ List.getLast_mem hne

/-- C3: a size token contributes to the `total_size` accumulator only
if it passes `isdigit` after removing dots only; consequently every
`K`/`M`/`G`-suffixed token contributes exactly 0, while `_parse_size`
(the `largest_files` sort key) still gives such tokens their full byte
value, e.g. 1536.0 for `"1.5K"`. -/
theorem c3_accumulator_guard :
    (∀ s : List Char, ∀ v : PyFloat, sizeContribution s = some v → v.toRat ≠ 0 →
        pyIsDigit (removeAll '.' s) = true)
  ∧ (∀ s : List Char, (s.getLast? = some 'K' ∨ s.getLast? = some 'M' ∨ s.getLast? = some 'G') →
        sizeContribution s = some PyFloat.zero)
  ∧ (parseSize "1.5K".data).map PyFloat.toRat = some 1536 := by
  refine ⟨?_, ?_, ?_⟩
  · intro s v h hv
    by_contra hg
    rw [Bool.not_eq_true] at hg
    simp only [sizeContribution, hg, Bool.false_eq_true, if_false, Option.some.injEq] at h
    exact hv (h ▸ PyFloat.toRat_zero)
  · intro s h
    have hmem : ∃ c, c ∈ removeAll '.' s ∧ Char.isDigit c = false := by
      rcases h with h | h | h
      · exact ⟨'K', List.mem_filter.mpr ⟨mem_of_getLast?_eq h, by decide⟩, by decide⟩
      · exact ⟨'M', List.mem_filter.mpr ⟨mem_of_getLast?_eq h, by decide⟩, by decide⟩
      · exact ⟨'G', List.mem_filter.mpr ⟨mem_of_getLast?_eq h, by decide⟩, by decide⟩
    rcases hmem with ⟨c, hc, hcd⟩
    have hall : (removeAll '.' s).all Char.isDigit = false := by
      by_contra hcon
      rw [Bool.not_eq_false] at hcon
      exact absurd (List.all_eq_true.mp hcon c hc) (by simp [hcd])
    have hguard : pyIsDigit (removeAll '.' s) = false := by
      simp [pyIsDigit, hall]
    simp [sizeContribution, hguard]
  · rw [show parseSize "1.5K".data = some ⟨15360, 1⟩ from by decide]
    norm_num [PyFloat.toRat]

/-- C3 witness: the general parts of `c3_accumulator_guard` applied at
concrete tokens. -/
theorem c3_witness :
    pyIsDigit (removeAll '.' "500".data) = true
  ∧ sizeContribution "7K".data = some PyFloat.zero := by
  constructor
  · exact c3_accumulator_guard.1 "500".data ⟨500, 0⟩ (by decide)
      (by norm_num [PyFloat.toRat])
  · exact c3_accumulator_guard.2.1 "7K".data (Or.inl (by decide))

/-- C8: the summary for an empty parsed-entry sequence — and only then —
is the inaccessible record with the generic "Directory empty or access
denied" message (a constructor carrying no counts and no size). -/
theorem c8_empty_inaccessible (path : List Char) (files : List Entry) :
    getDirectorySummary path files
      = DirSummary.inaccessible path "Directory empty or access denied".data
  ↔ files = [] := by
  constructor
  · intro h
    cases files with
    | nil => rfl
    | cons f fs =>
      exfalso
      rw [getDirectorySummary] at h
      simp only [List.isEmpty_cons, Bool.false_eq_true, if_false] at h
      rcases hts : totalSizeBytes ((f :: fs).map (·.size)) with _ | ts
      · rw [hts] at h
        exact DirSummary.noConfusion h
      · rw [hts] at h
        rcases hlf : largestFiles (f :: fs) with _ | lf
        · rw [hlf] at h
          exact DirSummary.noConfusion h
        · rw [hlf] at h
          exact DirSummary.noConfusion h
  · intro h
    subst h
    rfl

/-- C10: whenever the summary succeeds, directory count plus file count
equals the total item count, the total is the number of entries, and the
directory count is the number of entries whose permissions start with
`'d'`. -/
theorem c10_count_invariant (path : List Char) (files : List Entry)
    (t d n : ℕ) (sz : List Char) (lg : List Entry)
    (h : getDirectorySummary path files = DirSummary.ok path t d n sz lg) :
    d + n = t ∧ t = files.length
  ∧ d = (files.filter fun f => List.isPrefixOf "d".data f.permissions).length := by
  cases files with
  | nil =>
    exact absurd h (by rw [getDirectorySummary]; simp)
  | cons f fs =>
    rw [getDirectorySummary] at h
    simp only [List.isEmpty_cons, Bool.false_eq_true, if_false] at h
    rcases hts : totalSizeBytes ((f :: fs).map (·.size)) with _ | ts
    · rw [hts] at h
      exact DirSummary.noConfusion h
    · rw [hts] at h
      rcases hlf : largestFiles (f :: fs) with _ | lf
      · rw [hlf] at h
        exact DirSummary.noConfusion h
      · rw [hlf] at h
        injection h with h1 h2 h3 h4 h5 h6
        subst h2
        subst h3
        subst h4
        exact ⟨Nat.add_sub_cancel' (List.length_filter_le _ _), rfl, rfl⟩

/-- C10 witness: the invariant at a concrete two-entry listing (one
directory, one file). -/
theorem c10_witness :
    (1 : ℕ) + 1 = 2
  ∧ (2 : ℕ) = ([⟨"drwxr-xr-x".data, "2".data, "u".data, "g".data, "4.0K".data, "Jan".data,
        "1".data, "00:00".data, "sub".data⟩,
      ⟨"-rw-r--r--".data, "1".data, "u".data, "g".data, "512".data, "Jan".data,
        "1".data, "00:00".data, "f".data⟩] : List Entry).length
  ∧ (1 : ℕ) = (([⟨"drwxr-xr-x".data, "2".data, "u".data, "g".data, "4.0K".data, "Jan".data,
        "1".data, "00:00".data, "sub".data⟩,
      ⟨"-rw-r--r--".data, "1".data, "u".data, "g".data, "512".data, "Jan".data,
        "1".data, "00:00".data, "f".data⟩] : List Entry).filter
        fun f => List.isPrefixOf "d".data f.permissions).length :=
  c10_count_invariant "/x".data
    [⟨"drwxr-xr-x".data, "2".data, "u".data, "g".data, "4.0K".data, "Jan".data,
        "1".data, "00:00".data, "sub".data⟩,
      ⟨"-rw-r--r--".data, "1".data, "u".data, "g".data, "512".data, "Jan".data,
        "1".data, "00:00".data, "f".data⟩]
    2 1 1 "512 bytes".data
    [⟨"drwxr-xr-x".data, "2".data, "u".data, "g".data, "4.0K".data, "Jan".data,
        "1".data, "00:00".data, "sub".data⟩,
      ⟨"-rw-r--r--".data, "1".data, "u".data, "g".data, "512".data, "Jan".data,
        "1".data, "00:00".data, "f".data⟩]
    (by decide)

/-- C6: the human-readable formatting picks the largest of GB/MB/KB whose
threshold (1024³, 1024², 1024) the value strictly exceeds, rendered to one
decimal place, and otherwise renders the whole number of bytes with a
`" bytes"` suffix; in particular a value of exactly 1024 formats as
`"1024 bytes"` and 1025 as `"1.0KB"`. -/
theorem c6_human_format_boundaries (q : PyFloat) :
    (q.toRat ≤ 1024 → humanSize q = Nat.toDigits 10 (q.num / 10 ^ q.exp) ++ " bytes".data)
  ∧ (1024 < q.toRat → q.toRat ≤ 1024 * 1024 →
      humanSize q = fmt1Div q 1024 ++ "KB".data)
  ∧ (1024 * 1024 < q.toRat → q.toRat ≤ 1024 * 1024 * 1024 →
      humanSize q = fmt1Div q (1024 * 1024) ++ "MB".data)
  ∧ (1024 * 1024 * 1024 < q.toRat →
      humanSize q = fmt1Div q (1024 * 1024 * 1024) ++ "GB".data)
  ∧ (q.toRat = 1024 → humanSize q = "1024 bytes".data)
  ∧ (q.toRat = 1025 → humanSize q = "1.0KB".data) := by
  have e1 : ((1024 : ℕ) : ℚ) = 1024 := by norm_num
  have e2 : ((1024 * 1024 : ℕ) : ℚ) = 1024 * 1024 := by norm_num
  have e3 : ((1024 * 1024 * 1024 : ℕ) : ℚ) = 1024 * 1024 * 1024 := by norm_num
  have gtF : ∀ n : ℕ, q.toRat ≤ (n : ℚ) → q.gtNat n = false := by
    intro n hn
    rw [Bool.eq_false_iff]
    intro hc
    exact absurd ((PyFloat.gtNat_iff q n).mp hc) (not_lt.mpr hn)
  have gtT : ∀ n : ℕ, (n : ℚ) < q.toRat → q.gtNat n = true := fun n hn =>
    (PyFloat.gtNat_iff q n).mpr hn
  have hbytes : q.toRat ≤ 1024 →
      humanSize q = Nat.toDigits 10 (q.num / 10 ^ q.exp) ++ " bytes".data := by
    intro h
    have h1 := gtF (1024 * 1024 * 1024) (by rw [e3]; nlinarith)
    have h2 := gtF (1024 * 1024) (by rw [e2]; nlinarith)
    have h3 := gtF 1024 (by rw [e1]; linarith)
    simp only [humanSize, h1, h2, h3, Bool.false_eq_true, if_false]
  have hkb : 1024 < q.toRat → q.toRat ≤ 1024 * 1024 →
      humanSize q = fmt1Div q 1024 ++ "KB".data := by
    intro h h'
    have h1 := gtF (1024 * 1024 * 1024) (by rw [e3]; nlinarith)
    have h2 := gtF (1024 * 1024) (by rw [e2]; linarith)
    have h3 := gtT 1024 (by rw [e1]; linarith)
    simp only [humanSize, h1, h2, h3, Bool.false_eq_true, if_false, if_true]
  refine ⟨hbytes, hkb, ?_, ?_, ?_, ?_⟩
  · intro h h'
    have h1 := gtF (1024 * 1024 * 1024) (by rw [e3]; linarith)
    have h2 := gtT (1024 * 1024) (by rw [e2]; linarith)
    simp only [humanSize, h1, h2, Bool.false_eq_true, if_false, if_true]
  · intro h
    have h1 := gtT (1024 * 1024 * 1024) (by rw [e3]; linarith)
    simp only [humanSize, h1, if_true]
  · intro h
    have h10 : (0 : ℚ) < (10 : ℚ) ^ q.exp := by positivity
    have hnum : q.num = 1024 * 10 ^ q.exp := by
      rw [PyFloat.toRat, div_eq_iff (ne_of_gt h10)] at h
      exact_mod_cast h
    rw [hbytes (le_of_eq h), hnum, Nat.mul_div_cancel _ (Nat.pos_pow_of_pos _ (by norm_num))]
    decide
  · intro h
    have h10 : (0 : ℚ) < (10 : ℚ) ^ q.exp := by positivity
    have hnum : q.num = 1025 * 10 ^ q.exp := by
      rw [PyFloat.toRat, div_eq_iff (ne_of_gt h10)] at h
      exact_mod_cast h
    rw [hkb (by rw [h]; norm_num) (by rw [h]; norm_num)]
    have hfmt : fmt1Div q 1024
        = Nat.toDigits 10
            ((2 * (q.num * 10) + 10 ^ q.exp * 1024) / (2 * (10 ^ q.exp * 1024)) / 10)
          ++ '.' :: Nat.toDigits 10
            ((2 * (q.num * 10) + 10 ^ q.exp * 1024) / (2 * (10 ^ q.exp * 1024)) % 10) := rfl
    have ha : 2 * (q.num * 10) + 10 ^ q.exp * 1024 = 10 ^ q.exp * 21524 := by
      rw [hnum]; ring
    have hb : 2 * (10 ^ q.exp * 1024) = 10 ^ q.exp * 2048 := by ring
    have hpos : 0 < 10 ^ q.exp := Nat.pos_pow_of_pos _ (by norm_num)
    rw [hfmt, ha, hb, Nat.mul_div_mul_left _ _ hpos]
    decide

/-- C6 witness: the two boundary instances of `c6_human_format_boundaries`
at concrete values. -/
theorem c6_witness :
    humanSize ⟨1024, 0⟩ = "1024 bytes".data ∧ humanSize ⟨1025, 0⟩ = "1.0KB".data :=
  ⟨(c6_human_format_boundaries ⟨1024, 0⟩).2.2.2.2.1 (by norm_num [PyFloat.toRat]),
   (c6_human_format_boundaries ⟨1025, 0⟩).2.2.2.2.2 (by norm_num [PyFloat.toRat])⟩

/-- C4 counterexample: the claimed "each non-blank line is parsed iff it
has ≥ 9 tokens" fails as stated, because a first line beginning with
`total` is discarded regardless of its token count: this text has two
non-blank lines, both with at least 9 whitespace tokens, yet parses to
one entry. -/
theorem c4_total_line_counterexample :
    splitNL (pyStrip "total 1 2 3 4 5 6 7 8\n-rw-r--r-- 1 u g 5 Jan 1 00:00 f".data)
      = ["total 1 2 3 4 5 6 7 8".data, "-rw-r--r-- 1 u g 5 Jan 1 00:00 f".data]
  ∧ 9 ≤ (pySplit "total 1 2 3 4 5 6 7 8".data).length
  ∧ 9 ≤ (pySplit "-rw-r--r-- 1 u g 5 Jan 1 00:00 f".data).length
  ∧ pyStrip "total 1 2 3 4 5 6 7 8".data ≠ []
  ∧ (parseListing "total 1 2 3 4 5 6 7 8\n-rw-r--r-- 1 u g 5 Jan 1 00:00 f".data).length
      = 1 := by
  decide

/-- C4 (amended): except that a first line beginning with `total` is
discarded regardless of its token count, each non-blank line yields
exactly one entry iff it splits into at least 9 whitespace tokens —
the output is exactly the qualifying lines, in input order, mapped to
entries — and a parsed line's entry takes tokens 0–7 verbatim as
permissions/links/owner/group/size/month/day/time and joins tokens 8+
with single spaces as the name. -/
theorem c4_amended_parse (text : List Char) :
    parseListing text
      = ((effLines text).filter fun l => decide (9 ≤ (pySplit l).length)).map
          (fun l => entryOfParts (pySplit l))
  ∧ ∀ l : List Char, 9 ≤ (pySplit l).length →
      parseLine l = some
        { permissions := (pySplit l).getD 0 []
          links := (pySplit l).getD 1 []
          owner := (pySplit l).getD 2 []
          group := (pySplit l).getD 3 []
          size := (pySplit l).getD 4 []
          month := (pySplit l).getD 5 []
          day := (pySplit l).getD 6 []
          time := (pySplit l).getD 7 []
          name := joinSep ' ' ((pySplit l).drop 8) } := by
  constructor
  · unfold parseListing
    rw [List.filterMap_congr fun l _ => parseLine_eq l,
      filterMap_ite_eq_filter_map (fun l => 9 ≤ (pySplit l).length)
        (fun l => entryOfParts (pySplit l))]
  · intro l hl
    rw [parseLine_eq, if_pos hl]
    rfl

/-- C4 witness: the amended parse law evaluated on a concrete line with
an embedded-space file name. -/
theorem c4_witness :
    parseLine "-rw-r--r-- 1 u g 512 Jan 1 00:00 my report final.txt".data
      = some ⟨"-rw-r--r--".data, "1".data, "u".data, "g".data, "512".data,
          "Jan".data, "1".data, "00:00".data, "my report final.txt".data⟩ := by
  rw [(c4_amended_parse []).2
    "-rw-r--r-- 1 u g 512 Jan 1 00:00 my report final.txt".data (by decide)]
  decide

/-- C7: a text made of a `"total 48"` line followed by N well-formed
rows (each newline-free, not ending in whitespace, and splitting into at
least 9 tokens) parses to exactly N entries: the total line contributes
none. -/
theorem c7_total_line_skip (rows : List (List Char)) (hne : rows ≠ [])
    (h : ∀ r ∈ rows, r ≠ [] ∧ '\n' ∉ r ∧ isPySpace (r.getLastD ' ') = false
          ∧ 9 ≤ (pySplit r).length) :
    (parseListing ("total 48".data ++ '\n' :: joinSep '\n' rows)).length
      = rows.length := by
  have hall_ne : ∀ x ∈ rows, x ≠ [] := fun x hx => (h x hx).1
  have hstrip : pyStrip ("total 48".data ++ '\n' :: joinSep '\n' rows)
      = "total 48".data ++ '\n' :: joinSep '\n' rows := by
    apply pyStrip_eq_self
    · intro c hc
      rw [show ("total 48".data ++ '\n' :: joinSep '\n' rows).head? = some 't' from rfl,
        Option.some.injEq] at hc
      rw [← hc]
      decide
    · intro c hc
      rcases @joinSep_getLast?_mem '\n' rows hne hall_ne with ⟨r, hrmem, hreq⟩
      have hJne : joinSep '\n' rows ≠ [] := joinSep_ne_nil hne hall_ne
      have hr_ne : r ≠ [] := hall_ne r hrmem
      rw [List.getLast?_append] at hc
      cases hJc : joinSep '\n' rows with
      | nil => exact absurd hJc hJne
      | cons j js =>
        rw [hJc] at hc hreq
        rw [List.getLast?_cons_cons, hreq,
          List.getLast?_eq_getLast_of_ne_nil hr_ne] at hc
        have hcc : r.getLast hr_ne = c := by
          have h' := hc
          rw [show (some (r.getLast hr_ne)).or ("total 48".data.getLast?)
              = some (r.getLast hr_ne) from rfl] at h'
          exact Option.some.inj h'
        have hlast : isPySpace (r.getLastD ' ') = false := (h r hrmem).2.2.1
        rw [List.getLastD_eq_getLast?, List.getLast?_eq_getLast_of_ne_nil hr_ne,
          Option.getD_some] at hlast
        rw [← hcc]
        exact hlast
  unfold parseListing effLines
  rw [hstrip, splitNL_append (by decide),
    splitNL_joinSep hne fun r hr => (h r hr).2.1]
  rw [show skipTotal ("total 48".data :: rows)
      = if List.isPrefixOf "total".data "total 48".data = true then rows
        else "total 48".data :: rows from rfl]
  rw [if_pos (show List.isPrefixOf "total".data "total 48".data = true from by decide)]
  apply length_filterMap_of_all_some
  intro r hr
  exact ⟨entryOfParts (pySplit r), by rw [parseLine_eq, if_pos (h r hr).2.2.2]⟩

/-- C7 witness: a `"total 48"` line plus two well-formed rows parses to
exactly two entries. -/
theorem c7_witness :
    (parseListing ("total 48".data ++ '\n' :: joinSep '\n'
        ["-rw-r--r-- 1 u g 512 Jan 1 00:00 a".data,
         "drwxr-xr-x 2 u g 4.0K Jan 2 00:01 b".data])).length = 2 :=
  c7_total_line_skip
    ["-rw-r--r-- 1 u g 512 Jan 1 00:00 a".data,
     "drwxr-xr-x 2 u g 4.0K Jan 2 00:01 b".data]
    (by decide) (by decide)

theorem insertDesc_perm {α : Type} (x : PyFloat × α) (l : List (PyFloat × α)) :
    List.Perm (insertDesc x l) (x :: l) := by
  induction l with
  | nil => exact List.Perm.refl _
  | cons y ys ih =>
    simp only [insertDesc]
    by_cases hxy : x.1.le y.1 = true
    · rw [if_pos hxy]
      exact (ih.cons y).trans (List.Perm.swap x y ys)
    · rw [if_neg hxy]

theorem insertDesc_sorted {α : Type} (x : PyFloat × α) (l : List (PyFloat × α))
    (hl : l.Pairwise fun a b => b.1.toRat ≤ a.1.toRat) :
    (insertDesc x l).Pairwise fun a b => b.1.toRat ≤ a.1.toRat := by
  induction l with
  | nil => simp [insertDesc]
  | cons y ys ih =>
    rcases List.pairwise_cons.mp hl with ⟨hy, hys⟩
    simp only [insertDesc]
    by_cases hxy : x.1.le y.1 = true
    · have hxy' : x.1.toRat ≤ y.1.toRat := (PyFloat.le_iff _ _).mp hxy
      rw [if_pos hxy]
      refine List.pairwise_cons.mpr ⟨?_, ih hys⟩
      intro z hz
      rcases List.mem_cons.mp ((insertDesc_perm x ys).mem_iff.mp hz) with rfl | hz2
      · exact hxy'
      · exact hy z hz2
    · have hxy' : y.1.toRat ≤ x.1.toRat :=
        le_of_not_le fun hc => hxy ((PyFloat.le_iff _ _).mpr hc)
      rw [if_neg hxy]
      refine List.pairwise_cons.mpr ⟨?_, hl⟩
      intro z hz
      rcases List.mem_cons.mp hz with rfl | hz2
      · exact hxy'
      · exact le_trans (hy z hz2) hxy'

theorem insertDesc_filter {α : Type} (q : ℚ) (x : PyFloat × α) (l : List (PyFloat × α))
    (hl : l.Pairwise fun a b => b.1.toRat ≤ a.1.toRat) :
    (insertDesc x l).filter (fun p => decide (p.1.toRat = q))
      = if x.1.toRat = q
        then l.filter (fun p => decide (p.1.toRat = q)) ++ [x]
        else l.filter (fun p => decide (p.1.toRat = q)) := by
  induction l with
  | nil =>
    by_cases hx : x.1.toRat = q <;> simp [insertDesc, hx]
  | cons y ys ih =>
    rcases List.pairwise_cons.mp hl with ⟨hy, hys⟩
    simp only [insertDesc]
    by_cases hxy : x.1.le y.1 = true
    · rw [if_pos hxy]
      by_cases hyq : y.1.toRat = q
      · rw [List.filter_cons_of_pos (by simp [hyq]),
          List.filter_cons_of_pos (by simp [hyq]), ih hys]
        by_cases hx : x.1.toRat = q
        · rw [if_pos hx, if_pos hx, List.cons_append]
        · rw [if_neg hx, if_neg hx]
      · rw [List.filter_cons_of_neg (by simp [hyq]),
          List.filter_cons_of_neg (by simp [hyq]), ih hys]
    · have hxgt : y.1.toRat < x.1.toRat :=
        not_le.mp fun hc => hxy ((PyFloat.le_iff _ _).mpr hc)
      rw [if_neg hxy]
      by_cases hx : x.1.toRat = q
      · have hemp : (y :: ys).filter (fun p => decide (p.1.toRat = q)) = [] := by
          rw [List.filter_eq_nil_iff]
          intro z hz
          have hzy : z.1.toRat ≤ y.1.toRat := by
            rcases List.mem_cons.mp hz with rfl | hz2
            · exact le_refl _
            · exact hy z hz2
          simp only [decide_eq_true_eq]
          intro he
          rw [he] at hzy
          rw [hx] at hxgt
          exact absurd (lt_of_le_of_lt hzy hxgt) (lt_irrefl q)
        rw [if_pos hx, List.filter_cons_of_pos (by simp [hx]), hemp]
        rfl
      · rw [if_neg hx, List.filter_cons_of_neg (by simp [hx])]

theorem sortLoop_props {α : Type} (l acc : List (PyFloat × α))
    (hacc : acc.Pairwise fun a b => b.1.toRat ≤ a.1.toRat) :
    (List.foldl (fun acc x => insertDesc x acc) acc l).Pairwise
        (fun a b => b.1.toRat ≤ a.1.toRat)
  ∧ List.Perm (List.foldl (fun acc x => insertDesc x acc) acc l) (acc ++ l)
  ∧ ∀ q : ℚ,
      (List.foldl (fun acc x => insertDesc x acc) acc l).filter
          (fun p => decide (p.1.toRat = q))
        = acc.filter (fun p => decide (p.1.toRat = q))
            ++ l.filter (fun p => decide (p.1.toRat = q)) := by
  induction l generalizing acc with
  | nil => exact ⟨hacc, by simp, fun q => by simp⟩
  | cons x xs ih =>
    have hacc' := insertDesc_sorted x acc hacc
    rcases ih (insertDesc x acc) hacc' with ⟨hs, hp, hf⟩
    refine ⟨hs, ?_, ?_⟩
    · refine hp.trans ?_
      have h1 : List.Perm (insertDesc x acc ++ xs) ((x :: acc) ++ xs) :=
        (insertDesc_perm x acc).append_right xs
      refine h1.trans ?_
      exact List.perm_middle.symm
    · intro q
      rw [List.foldl_cons, hf q, insertDesc_filter q x acc hacc]
      by_cases hx : x.1.toRat = q
      · rw [if_pos hx, List.filter_cons_of_pos (by simp [hx]), List.append_assoc,
          List.singleton_append]
      · rw [if_neg hx, List.filter_cons_of_neg (by simp [hx])]

theorem keyEntries_eq {files : List Entry} {keyed : List (PyFloat × Entry)}
    (h : keyEntries files = some keyed) :
    keyed = files.map fun f => ((parseSize f.size).getD PyFloat.zero, f) := by
  induction files generalizing keyed with
  | nil =>
    rw [keyEntries] at h
    rw [← Option.some.inj h]
    rfl
  | cons f fs ih =>
    rw [keyEntries] at h
    rcases hps : parseSize f.size with _ | k
    · rw [hps] at h
      exact absurd h (by simp)
    · rw [hps] at h
      rcases hke : keyEntries fs with _ | rest
      · rw [hke] at h
        exact absurd h (by simp)
      · rw [hke] at h
        rw [← Option.some.inj h, List.map_cons, ← ih hke, hps]
        rfl

/-- C5: whenever the summary succeeds, its `largest_files` field is the
first three elements of the input entries stably sorted in descending
order of `_parse_size` of their size token: the full sorted sequence is
a permutation of the input, is descending in key value, and preserves
the input's relative order within every class of equal keys. -/
theorem c5_largest_files_ranking (path : List Char) (files : List Entry)
    (t d n : ℕ) (sz : List Char) (lg : List Entry) (hne : files ≠ [])
    (h : getDirectorySummary path files = DirSummary.ok path t d n sz lg) :
    ∃ F : List Entry, lg = F.take 3
      ∧ List.Perm F files
      ∧ F.Pairwise (fun a b => sizeKey b ≤ sizeKey a)
      ∧ ∀ q : ℚ, F.filter (fun e => decide (sizeKey e = q))
          = files.filter (fun e => decide (sizeKey e = q)) := by
  have hlf : largestFiles files = some lg := by
    cases files with
    | nil => exact absurd rfl hne
    | cons f fs =>
      rw [getDirectorySummary] at h
      simp only [List.isEmpty_cons, Bool.false_eq_true, if_false] at h
      rcases hts : totalSizeBytes ((f :: fs).map (·.size)) with _ | ts
      · rw [hts] at h
        exact DirSummary.noConfusion h
      · rw [hts] at h
        rcases hl : largestFiles (f :: fs) with _ | lf
        · rw [hl] at h
          exact DirSummary.noConfusion h
        · rw [hl] at h
          injection h with h1 h2 h3 h4 h5 h6
          rw [h6]
  rcases hke : keyEntries files with _ | keyed
  · rw [largestFiles, hke] at hlf
    exact absurd hlf (by simp)
  · rw [largestFiles, hke] at hlf
    have hlg : lg = ((stableSortDesc keyed).map Prod.snd).take 3 :=
      (Option.some.inj hlf).symm
    have hkeyed := keyEntries_eq hke
    rcases sortLoop_props keyed [] List.Pairwise.nil with ⟨hs, hp, hf⟩
    have hperm : List.Perm (stableSortDesc keyed) keyed := by
      have := hp
      rw [List.nil_append] at this
      exact this
    have hmem : ∀ p ∈ stableSortDesc keyed, p.1.toRat = sizeKey p.2 := by
      intro p hp2
      have hpk : p ∈ keyed := hperm.mem_iff.mp hp2
      rw [hkeyed] at hpk
      rcases List.mem_map.mp hpk with ⟨f, hf2, rfl⟩
      rfl
    have hsnd : keyed.map Prod.snd = files := by
      rw [hkeyed, List.map_map,
        show (Prod.snd ∘ fun f : Entry => ((parseSize f.size).getD PyFloat.zero, f))
          = id from rfl, List.map_id]
    have hf' : ∀ q : ℚ,
        (stableSortDesc keyed).filter (fun p => decide (p.1.toRat = q))
          = keyed.filter (fun p => decide (p.1.toRat = q)) := by
      intro q
      have h' := hf q
      rw [List.filter_nil, List.nil_append] at h'
      exact h'
    refine ⟨(stableSortDesc keyed).map Prod.snd, hlg, ?_, ?_, ?_⟩
    · have hm := hperm.map Prod.snd
      rw [hsnd] at hm
      exact hm
    · rw [List.pairwise_map]
      exact List.Pairwise.imp_of_mem
        (fun ha hb hr => by rw [← hmem _ ha, ← hmem _ hb]; exact hr) hs
    · intro q
      rw [List.filter_map]
      rw [List.filter_congr fun p hp2 => by
        show decide (sizeKey p.2 = q) = decide (p.1.toRat = q)
        rw [hmem p hp2]]
      rw [hf' q, hkeyed, List.filter_map, List.map_map]
      rw [show (Prod.snd ∘ fun f : Entry => ((parseSize f.size).getD PyFloat.zero, f))
          = id from rfl, List.map_id]
      rfl

/-- C5 witness: for size tokens `"1K"`, `"3M"`, `"500"`, `"2M"` the
summary's `largest_files` is the 3M, 2M and 1K entries in that order,
and the ranking law holds there. -/
theorem c5_witness :
    getDirectorySummary "/x".data
      [⟨"-rw-".data, "1".data, "u".data, "g".data, "1K".data, "Jan".data, "1".data,
          "00:00".data, "a".data⟩,
       ⟨"-rw-".data, "1".data, "u".data, "g".data, "3M".data, "Jan".data, "1".data,
          "00:00".data, "b".data⟩,
       ⟨"-rw-".data, "1".data, "u".data, "g".data, "500".data, "Jan".data, "1".data,
          "00:00".data, "c".data⟩,
       ⟨"-rw-".data, "1".data, "u".data, "g".data, "2M".data, "Jan".data, "1".data,
          "00:00".data, "d".data⟩]
      = DirSummary.ok "/x".data 4 0 4 "500 bytes".data
          [⟨"-rw-".data, "1".data, "u".data, "g".data, "3M".data, "Jan".data, "1".data,
              "00:00".data, "b".data⟩,
           ⟨"-rw-".data, "1".data, "u".data, "g".data, "2M".data, "Jan".data, "1".data,
              "00:00".data, "d".data⟩,
           ⟨"-rw-".data, "1".data, "u".data, "g".data, "1K".data, "Jan".data, "1".data,
              "00:00".data, "a".data⟩]
  ∧ ∃ F : List Entry,
      [⟨"-rw-".data, "1".data, "u".data, "g".data, "3M".data, "Jan".data, "1".data,
          "00:00".data, "b".data⟩,
       ⟨"-rw-".data, "1".data, "u".data, "g".data, "2M".data, "Jan".data, "1".data,
          "00:00".data, "d".data⟩,
       ⟨"-rw-".data, "1".data, "u".data, "g".data, "1K".data, "Jan".data, "1".data,
          "00:00".data, "a".data⟩] = F.take 3
      ∧ List.Perm F
          [⟨"-rw-".data, "1".data, "u".data, "g".data, "1K".data, "Jan".data, "1".data,
              "00:00".data, "a".data⟩,
           ⟨"-rw-".data, "1".data, "u".data, "g".data, "3M".data, "Jan".data, "1".data,
              "00:00".data, "b".data⟩,
           ⟨"-rw-".data, "1".data, "u".data, "g".data, "500".data, "Jan".data, "1".data,
              "00:00".data, "c".data⟩,
           ⟨"-rw-".data, "1".data, "u".data, "g".data, "2M".data, "Jan".data, "1".data,
              "00:00".data, "d".data⟩]
      ∧ F.Pairwise (fun a b => sizeKey b ≤ sizeKey a)
      ∧ ∀ q : ℚ, F.filter (fun e => decide (sizeKey e = q))
          = ([⟨"-rw-".data, "1".data, "u".data, "g".data, "1K".data, "Jan".data, "1".data,
                "00:00".data, "a".data⟩,
              ⟨"-rw-".data, "1".data, "u".data, "g".data, "3M".data, "Jan".data, "1".data,
                "00:00".data, "b".data⟩,
              ⟨"-rw-".data, "1".data, "u".data, "g".data, "500".data, "Jan".data, "1".data,
                "00:00".data, "c".data⟩,
              ⟨"-rw-".data, "1".data, "u".data, "g".data, "2M".data, "Jan".data, "1".data,
                "00:00".data, "d".data⟩]).filter (fun e => decide (sizeKey e = q)) :=
  ⟨by decide,
   c5_largest_files_ranking "/x".data
     [⟨"-rw-".data, "1".data, "u".data, "g".data, "1K".data, "Jan".data, "1".data,
         "00:00".data, "a".data⟩,
      ⟨"-rw-".data, "1".data, "u".data, "g".data, "3M".data, "Jan".data, "1".data,
         "00:00".data, "b".data⟩,
      ⟨"-rw-".data, "1".data, "u".data, "g".data, "500".data, "Jan".data, "1".data,
         "00:00".data, "c".data⟩,
      ⟨"-rw-".data, "1".data, "u".data, "g".data, "2M".data, "Jan".data, "1".data,
         "00:00".data, "d".data⟩]
     4 0 4 "500 bytes".data
     [⟨"-rw-".data, "1".data, "u".data, "g".data, "3M".data, "Jan".data, "1".data,
         "00:00".data, "b".data⟩,
      ⟨"-rw-".data, "1".data, "u".data, "g".data, "2M".data, "Jan".data, "1".data,
         "00:00".data, "d".data⟩,
      ⟨"-rw-".data, "1".data, "u".data, "g".data, "1K".data, "Jan".data, "1".data,
         "00:00".data, "a".data⟩]
     (by decide) (by decide)⟩
